import Mathlib

/-!
Shallow embedding of `src/chain.py` (an LLM-to-SQL console script).

Strings are modelled as `List Char`.  Python primitives used by the script
(`str.lower`, `str.strip`, `str.find`, slicing, `str.split`, `str.replace`,
the `in` substring test) are embedded faithfully as executable functions on
`List Char`.  The external LLM and database are modelled as oracles: the
textual replies (or exceptions) they would produce are inputs to the
embedded functions, and each embedded component returns, besides its value,
the list of observable events (console prints, LLM invocations, database
executions) that the corresponding Python code performs.
-/

set_option maxRecDepth 10000

/-- Python `str.lower` on one character (ASCII case mapping, which is all the
script's keyword and marker comparisons exercise). -/
def pyToLower (c : Char) : Char :=
  if 'A' ≤ c ∧ c ≤ 'Z' then Char.ofNat (c.toNat + 32) else c

/-- Python `str.lower` over a whole string. -/
def pyLower (s : List Char) : List Char :=
  s.map pyToLower

/-- Python whitespace characters recognised by `str.strip`. -/
def isPySpace (c : Char) : Bool :=
  c == ' ' || c == '\t' || c == '\n' || c == '\r' || c == '\x0b' || c == '\x0c'

/-- Python `str.strip`: remove leading and trailing whitespace. -/
def pyStrip (s : List Char) : List Char :=
  ((s.dropWhile isPySpace).reverse.dropWhile isPySpace).reverse

/-- Index of the first occurrence of `needle` in `hay` (`none` if absent);
the recursion mirrors the scan performed by Python `str.find`. -/
def pyFindN (needle : List Char) : List Char → Option Nat
  | [] => if needle.isPrefixOf ([] : List Char) then some 0 else none
  | c :: rest =>
    if needle.isPrefixOf (c :: rest) then some 0
    else (pyFindN needle rest).map (fun n => n + 1)

/-- Python `str.find`: first index of `needle` in `hay`, or `-1`. -/
def pyFind (needle hay : List Char) : Int :=
  match pyFindN needle hay with
  | some n => (n : Int)
  | none => -1

/-- Python slicing `s[i:]`, including the negative-index convention. -/
def pySliceFrom (i : Int) (s : List Char) : List Char :=
  s.drop (if 0 ≤ i then i.toNat else ((s.length : Int) + i).toNat)

/-- Worker for Python `str.split(sep)` (non-empty `sep`): `acc` holds the
reversed characters of the current field.  The `fuel` argument makes the
recursion structural (it is initialised to the length of the scanned list,
which bounds the number of steps); the `fuel = 0` fallback is unreachable
under that initialisation. -/
def pySplitGo (sep : List Char) : Nat → List Char → List Char → List (List Char)
  | _, acc, [] => [acc.reverse]
  | 0, acc, l => [acc.reverse ++ l]
  | fuel + 1, acc, c :: rest =>
    if sep.isPrefixOf (c :: rest) then
      acc.reverse :: pySplitGo sep fuel [] (rest.drop (sep.length - 1))
    else
      pySplitGo sep fuel (c :: acc) rest

/-- Python `str.split(sep)` for a non-empty separator. -/
def pySplit (sep s : List Char) : List (List Char) :=
  pySplitGo sep s.length [] s

/-- Worker for Python `str.replace(old, new)` with the same fuel scheme. -/
def pyReplaceGo (old new : List Char) : Nat → List Char → List Char
  | _, [] => []
  | 0, l => l
  | fuel + 1, c :: rest =>
    if old.isPrefixOf (c :: rest) then
      new ++ pyReplaceGo old new fuel (rest.drop (old.length - 1))
    else
      c :: pyReplaceGo old new fuel rest

/-- Python `str.replace(old, new)`: replace non-overlapping occurrences
left to right. -/
def pyReplace (old new s : List Char) : List Char :=
  pyReplaceGo old new s.length s

/-- Observable events of one iteration of the main loop of `chain.py`:
console prints, LLM invocations and database executions, in program order. -/
inductive Event where
  | printExit
  | printKeywordDetected
  | llmSafetyCall
  | printSafeToProceed
  | printLLMWarning
  | sqlChainCall
  | printSQLGenWarning
  | dbExecute (sql : List Char)
  | printDBWarning
  | promptLLMChoice
  | printInvalidChoice
  | llmVizCheckCall
  | printVizRequested
  | llmCodeGenCall
  | printGeneratedCode (code : List Char)
  | execGeneratedCode (code : List Char)
  | printExecSuccess
  | printExecError
  | printOffendingCode (code : List Char)
  | printRawAnswer (result : List Char)
  | llmAnswerCall
  | printFinalAnswer (ans : List Char)
  | printAnswerWarning
deriving DecidableEq

/-- Result of one pass through the loop body: the loop either breaks
(`exited`, on the literal input "exit") or goes round again (`looped`). -/
inductive Outcome where
  | exited
  | looped
deriving DecidableEq

/-- The LLM handles that exist in `chain.py`.  Only `llm_groq` is ever
constructed (line 25); the "llama2" menu entry has no backing model. -/
inductive ModelHandle where
  | llm_groq
deriving DecidableEq

/-- Keyword list `sensitive_keywords` of `refine_prompt` (lines 72-78). -/
def sensitive_keywords : List (List Char) :=
  [("security".toList), ("password".toList), ("authentication".toList),
   ("token".toList), ("credentials".toList)]

/-- Keyword list `modification_keywords` of `refine_prompt` (line 79). -/
def modification_keywords : List (List Char) :=
  [("insert".toList), ("update".toList), ("delete".toList),
   ("drop".toList), ("alter".toList), ("truncate".toList)]

/-- Executable substring test, Python `needle in hay`. -/
def pyContains (needle hay : List Char) : Bool :=
  match pyFindN needle hay with
  | some _ => true
  | none => false

/-- The keyword scan of `refine_prompt` (lines 82-83): does some keyword,
lowercased, occur in the lowercased question? -/
def keyword_flag (question : List Char) : Bool :=
  (sensitive_keywords ++ modification_keywords).any
    (fun k => pyContains (pyLower k) (pyLower question))

/-- The verdict marker scanned for in the safety LLM reply (line 94). -/
def safe_marker : List Char :=
  ("safe to proceed".toList)

/-- `refine_prompt(llm, question)` (lines 69-102), with the safety LLM's
reply supplied as the oracle `llmReply`.  Returns the boolean verdict and
the events performed: a keyword hit prints a notice, invokes the LLM once
and parses the reply; otherwise the function returns `True` silently. -/
def refine_prompt (llmReply question : List Char) : Bool × List Event :=
  if keyword_flag question then
    if pyContains safe_marker (pyLower llmReply) then
      (true, [Event.printKeywordDetected, Event.llmSafetyCall, Event.printSafeToProceed])
    else
      (false, [Event.printKeywordDetected, Event.llmSafetyCall, Event.printLLMWarning])
  else
    (true, [])

/-- `check_for_visualization_request(llm, user_input)` (lines 105-120) with
the LLM's reply supplied as oracle: the reply is stripped, lowercased and
compared for equality with "yes". -/
def check_for_visualization_request (llmReply : List Char) : Bool :=
  pyLower (pyStrip llmReply) == ("yes".toList)

/-- `ask_llm_to_generate_code` post-processing (lines 140-152) with the
LLM's reply supplied as oracle: slice from `reply.find("import")`, remove
markdown fences, strip. -/
def ask_llm_to_generate_code (llmReply : List Char) : List Char :=
  pyStrip (pyReplace ("```".toList) []
    (pyReplace ("```python".toList) []
    (pySliceFrom (pyFind ("import".toList) llmReply) llmReply)))

/-- `execute_generated_code(generated_code)` (lines 155-163): `exec` runs
the code (its success is the oracle `execOk`); on an exception the handler
prints the error and the offending code, and the function returns normally
in both cases. -/
def execute_generated_code (execOk : Bool) (generated_code : List Char) : List Event :=
  if execOk then
    [Event.execGeneratedCode generated_code, Event.printExecSuccess]
  else
    [Event.execGeneratedCode generated_code, Event.printExecError,
     Event.printOffendingCode generated_code]

/-- The marker after which the SQL text is extracted (line 188). -/
def sql_marker : List Char :=
  ("SQLQuery:".toList)

/-- Line 188: `sql_query = response.split("SQLQuery:")[-1].strip()`. -/
def extract_sql (response : List Char) : List Char :=
  pyStrip ((pySplit sql_marker response).getLastD [])

/-- Lines 200-206: the model-choice prompt.  The input is stripped and
lowercased; "groq" selects `llm_groq`, anything else prints the
invalid-choice notice and also assigns `llm_groq`. -/
def choose_llm (inp : List Char) : ModelHandle × List Event :=
  if pyLower (pyStrip inp) = ("groq".toList) then
    (ModelHandle.llm_groq, [Event.promptLLMChoice])
  else
    (ModelHandle.llm_groq, [Event.promptLLMChoice, Event.printInvalidChoice])

/-- Oracle for the external world during one loop iteration: the replies of
the LLM calls, the outcomes of the fallible chain/database/exec/answer
calls (`none` models a raised exception), and the console input at the
model-choice prompt. -/
structure Oracle where
  safetyReply : List Char
  sqlChainResult : Option (List Char)
  dbRunResult : List Char → Option (List Char)
  llmChoiceInput : List Char
  vizReply : List Char
  codeReply : List Char
  codeExecOk : List Char → Bool
  answerReply : ModelHandle → Option (List Char)

/-- The `try` block of lines 208-222: the visualization decision and, on a
yes, code generation followed by execution; otherwise the raw-result
printout of line 219. -/
def viz_branch (o : Oracle) (result : List Char) : List Event :=
  if check_for_visualization_request o.vizReply then
    [Event.llmVizCheckCall, Event.printVizRequested, Event.llmCodeGenCall,
     Event.printGeneratedCode (ask_llm_to_generate_code o.codeReply)] ++
      execute_generated_code (o.codeExecOk (ask_llm_to_generate_code o.codeReply))
        (ask_llm_to_generate_code o.codeReply)
  else
    [Event.llmVizCheckCall, Event.printRawAnswer result]

/-- The `try` block of lines 224-240: fill the answer template, invoke the
chosen model once, print its reply (or the warning on an exception). -/
def answer_step (o : Oracle) (m : ModelHandle) : List Event :=
  match o.answerReply m with
  | none => [Event.llmAnswerCall, Event.printAnswerWarning]
  | some ans => [Event.llmAnswerCall, Event.printFinalAnswer ans]

/-- One pass through the body of the main `while True` loop (lines
167-245) for a given console `question`, with the external world given by
`o`.  Returns whether the loop breaks or continues, together with the
events performed, in program order. -/
def run_iteration (o : Oracle) (question : List Char) : Outcome × List Event :=
  if pyLower question = ("exit".toList) then
    (Outcome.exited, [Event.printExit])
  else if (refine_prompt o.safetyReply question).1 = false then
    (Outcome.looped, (refine_prompt o.safetyReply question).2)
  else
    match o.sqlChainResult with
    | none =>
      (Outcome.looped, (refine_prompt o.safetyReply question).2 ++
        [Event.sqlChainCall, Event.printSQLGenWarning])
    | some response =>
      match o.dbRunResult (extract_sql response) with
      | none =>
        (Outcome.looped, (refine_prompt o.safetyReply question).2 ++
          [Event.sqlChainCall, Event.dbExecute (extract_sql response),
           Event.printDBWarning])
      | some result =>
        (Outcome.looped, (refine_prompt o.safetyReply question).2 ++
          [Event.sqlChainCall, Event.dbExecute (extract_sql response)] ++
          (choose_llm o.llmChoiceInput).2 ++ viz_branch o result ++
          answer_step o (choose_llm o.llmChoiceInput).1)

/-- Replace the console input given at the model-choice prompt, leaving
every other part of the external world unchanged. -/
def setChoice (o : Oracle) (inp : List Char) : Oracle :=
  ⟨o.safetyReply, o.sqlChainResult, o.dbRunResult, inp, o.vizReply, o.codeReply,
   o.codeExecOk, o.answerReply⟩

/-- A concrete session: benign question path, chain and database succeed,
and the visualization decider's LLM replies "yes". -/
def oracleViz : Oracle :=
  ⟨("ok".toList), some ("SQLQuery: SELECT name FROM users".toList),
   (fun _ => some ("rows".toList)), ("groq".toList), ("yes".toList),
   ("import os".toList), (fun _ => true), (fun _ => some ("answer".toList))⟩

/-- A concrete session in which every database execution raises. -/
def oracleDBFail : Oracle :=
  ⟨("ok".toList), some ("SQLQuery: SELECT name FROM users".toList),
   (fun _ => none), ("groq".toList), ("no".toList),
   ("import os".toList), (fun _ => true), (fun _ => some ("answer".toList))⟩

/-- Like `oracleViz` but executing the generated code raises. -/
def oracleVizExecFail : Oracle :=
  ⟨("ok".toList), some ("SQLQuery: SELECT name FROM users".toList),
   (fun _ => some ("rows".toList)), ("groq".toList), ("yes".toList),
   ("import os".toList), (fun _ => false), (fun _ => some ("answer".toList))⟩


theorem isPrefixOf_eq_true_iff (l₁ l₂ : List Char) :
    l₁.isPrefixOf l₂ = true ↔ l₁ <+: l₂ :=
  List.isPrefixOf_iff_prefix

theorem infix_iff_exists_drop (needle hay : List Char) :
    needle <:+: hay ↔ ∃ m, needle <+: hay.drop m := by
  constructor
  · rintro ⟨s, t, rfl⟩
    refine ⟨s.length, t, ?_⟩
    rw [List.append_assoc, List.drop_left]
  · rintro ⟨m, t, ht⟩
    refine ⟨hay.take m, t, ?_⟩
    rw [List.append_assoc, ht, List.take_append_drop]

theorem pyFindN_none_spec (needle : List Char) :
    ∀ hay, pyFindN needle hay = none → ¬ needle <:+: hay := by
  intro hay
  induction hay with
  | nil =>
    intro h hinf
    rw [pyFindN] at h
    split at h
    · cases h
    · rename_i hp
      obtain ⟨s, t, hst⟩ := hinf
      have hn : needle = [] := by
        have h1 := List.append_eq_nil.mp hst
        exact (List.append_eq_nil.mp h1.1).2
      subst hn
      simp at hp
  | cons c rest ih =>
    intro h hinf
    rw [pyFindN] at h
    split at h
    · cases h
    · rename_i hp
      have hrest : pyFindN needle rest = none := by
        cases heq : pyFindN needle rest with
        | none => rfl
        | some k => rw [heq] at h; simp at h
      rcases List.infix_cons_iff.mp hinf with hpre | hinf2
      · exact hp (isPrefixOf_eq_true_iff _ _ |>.mpr hpre)
      · exact ih hrest hinf2

theorem pyFindN_some_spec (needle : List Char) :
    ∀ hay n, pyFindN needle hay = some n →
      needle <+: hay.drop n ∧ n ≤ hay.length ∧
        ∀ m, m < n → ¬ needle <+: hay.drop m := by
  intro hay
  induction hay with
  | nil =>
    intro n h
    rw [pyFindN] at h
    split at h
    · rename_i hp
      cases h
      exact ⟨isPrefixOf_eq_true_iff _ _ |>.mp hp, Nat.le_refl 0,
        fun m hm => (Nat.not_lt_zero m hm).elim⟩
    · cases h
  | cons hd rest ih =>
    intro n h
    rw [pyFindN] at h
    split at h
    · rename_i hp
      cases h
      exact ⟨isPrefixOf_eq_true_iff _ _ |>.mp hp, Nat.zero_le _,
        fun m hm => (Nat.not_lt_zero m hm).elim⟩
    · rename_i hp
      cases heq : pyFindN needle rest with
      | none => rw [heq] at h; cases h
      | some k =>
        rw [heq] at h
        simp at h
        subst h
        obtain ⟨h1, h2, h3⟩ := ih k heq
        refine ⟨h1, ?_, ?_⟩
        · simp only [List.length_cons]
          omega
        · intro m hm
          cases m with
          | zero =>
            intro hpre
            exact hp (isPrefixOf_eq_true_iff _ _ |>.mpr hpre)
          | succ m2 =>
            have hm2 : m2 < k := by omega
            exact h3 m2 hm2

theorem pyContains_iff (needle hay : List Char) :
    pyContains needle hay = true ↔ needle <:+: hay := by
  cases heq : pyFindN needle hay with
  | none =>
    rw [pyContains, heq]
    simp only [Bool.false_eq_true, false_iff]
    exact pyFindN_none_spec needle hay heq
  | some k =>
    rw [pyContains, heq]
    simp only [true_iff]
    obtain ⟨h1, _, _⟩ := pyFindN_some_spec needle hay k heq
    exact (infix_iff_exists_drop needle hay).mpr ⟨k, h1⟩

theorem keyword_flag_iff (question : List Char) :
    keyword_flag question = true ↔
      ∃ k ∈ sensitive_keywords ++ modification_keywords,
        pyLower k <:+: pyLower question := by
  rw [keyword_flag, List.any_eq_true]
  constructor
  · rintro ⟨k, hk, hc⟩
    exact ⟨k, hk, (pyContains_iff _ _).mp hc⟩
  · rintro ⟨k, hk, hc⟩
    exact ⟨k, hk, (pyContains_iff _ _).mpr hc⟩

/-- C1: for every question containing one of the fixed sensitive or
mutating keywords as a case-insensitive substring, `refine_prompt` invokes
the LLM exactly once, and its verdict is true iff the lowercased LLM reply
contains the substring "safe to proceed". -/
theorem c1_keyword_question_one_llm_call (question llmReply : List Char)
    (h : ∃ k ∈ sensitive_keywords ++ modification_keywords,
      pyLower k <:+: pyLower question) :
    (refine_prompt llmReply question).2.count Event.llmSafetyCall = 1 ∧
      ((refine_prompt llmReply question).1 = true ↔
        safe_marker <:+: pyLower llmReply) := by
  have hk : keyword_flag question = true := (keyword_flag_iff question).mpr h
  rw [refine_prompt, if_pos hk]
  by_cases hs : pyContains safe_marker (pyLower llmReply) = true
  · rw [if_pos hs]
    exact ⟨by decide, by simp [(pyContains_iff _ _).mp hs]⟩
  · rw [if_neg hs]
    refine ⟨by decide, ?_⟩
    simp only [Bool.false_eq_true, false_iff]
    intro hinf
    exact hs ((pyContains_iff _ _).mpr hinf)

/-- Witness for C1 at the question "drop table x" (keyword "drop") and the
reply "safe to proceed". -/
theorem c1_witness :
    (refine_prompt ("safe to proceed".toList) ("drop table x".toList)).2.count
        Event.llmSafetyCall = 1 ∧
      ((refine_prompt ("safe to proceed".toList) ("drop table x".toList)).1 = true ↔
        safe_marker <:+: pyLower ("safe to proceed".toList)) :=
  c1_keyword_question_one_llm_call ("drop table x".toList)
    ("safe to proceed".toList) (by decide)

/-- C2: for every question containing none of the eleven keywords as a
case-insensitive substring, `refine_prompt` returns true (proceed) and
performs no LLM call. -/
theorem c2_no_keyword_fast_path (question llmReply : List Char)
    (h : ∀ k ∈ sensitive_keywords ++ modification_keywords,
      ¬ pyLower k <:+: pyLower question) :
    (refine_prompt llmReply question).1 = true ∧
      (refine_prompt llmReply question).2.count Event.llmSafetyCall = 0 := by
  have hk : ¬ keyword_flag question = true := by
    rw [keyword_flag_iff]
    push_neg
    exact h
  rw [refine_prompt, if_neg hk]
  exact ⟨rfl, rfl⟩

/-- Witness for C2 at the question "show all users" (no keyword occurs). -/
theorem c2_witness :
    (refine_prompt ("ok".toList) ("show all users".toList)).1 = true ∧
      (refine_prompt ("ok".toList) ("show all users".toList)).2.count
        Event.llmSafetyCall = 0 :=
  c2_no_keyword_fast_path ("show all users".toList) ("ok".toList) (by decide)

/-- C5: the visualization decider returns true iff the trimmed, lowercased
LLM reply is exactly "yes"; in particular "no", "No", "maybe" and the
empty reply yield false, while a reply such as " Yes " yields true. -/
theorem c5_viz_decider_yes_iff :
    (∀ llmReply : List Char,
      check_for_visualization_request llmReply = true ↔
        pyLower (pyStrip llmReply) = ("yes".toList)) ∧
      check_for_visualization_request ("no".toList) = false ∧
      check_for_visualization_request ("No".toList) = false ∧
      check_for_visualization_request ("maybe".toList) = false ∧
      check_for_visualization_request [] = false ∧
      check_for_visualization_request (" Yes ".toList) = true := by
  refine ⟨fun llmReply => ?_, by decide, by decide, by decide, by decide, by decide⟩
  rw [check_for_visualization_request]
  exact beq_iff_eq

/-- C7: the model-choice prompt has no behavioral effect.  Every input
selects `llm_groq`; the invalid-choice notice is printed exactly when the
stripped, lowercased input is not "groq"; and two loop iterations that
differ only in the choice input have the same outcome and the same events
apart from that notice. -/
theorem c7_model_choice_equiv (o : Oracle) (q inp1 inp2 : List Char) :
    (choose_llm inp1).1 = ModelHandle.llm_groq ∧
      ((choose_llm inp1).2.count Event.printInvalidChoice = 1 ↔
        pyLower (pyStrip inp1) ≠ ("groq".toList)) ∧
      (run_iteration (setChoice o inp1) q).1 = (run_iteration (setChoice o inp2) q).1 ∧
      (run_iteration (setChoice o inp1) q).2.filter
          (fun e => e != Event.printInvalidChoice) =
        (run_iteration (setChoice o inp2) q).2.filter
          (fun e => e != Event.printInvalidChoice) := by
  have hm : ∀ inp, (choose_llm inp).1 = ModelHandle.llm_groq := by
    intro inp
    rw [choose_llm]
  have hf : ∀ inp, (choose_llm inp).2.filter (fun e => e != Event.printInvalidChoice) =
      [Event.promptLLMChoice] := by
    intro inp
    rw [choose_llm]
    split <;> rfl
  refine ⟨hm inp1, ?_, ?_⟩
  · rw [choose_llm]
    by_cases h : pyLower (pyStrip inp1) = ("groq".toList)
    · rw [if_pos h]
      exact iff_of_false (by decide) (fun hne => hne h)
    · rw [if_neg h]
      exact iff_of_true (by decide) h
  have hsafety : ∀ inp, (setChoice o inp).safetyReply = o.safetyReply := fun _ => rfl
  have hsql : ∀ inp, (setChoice o inp).sqlChainResult = o.sqlChainResult := fun _ => rfl
  have hdbf : ∀ inp s, (setChoice o inp).dbRunResult s = o.dbRunResult s := fun _ _ => rfl
  have hchoice : ∀ inp, (setChoice o inp).llmChoiceInput = inp := fun _ => rfl
  have hviz2 : ∀ inp r, viz_branch (setChoice o inp) r = viz_branch o r := fun _ _ => rfl
  have hans : ∀ inp m, answer_step (setChoice o inp) m = answer_step o m := fun _ _ => rfl
  rw [run_iteration, run_iteration]
  simp only [hsafety, hsql, hdbf, hchoice, hviz2, hans]
  by_cases hexit : pyLower q = ("exit".toList)
  · simp only [if_pos hexit]
    constructor <;> first | rfl | exact True.intro
  simp only [if_neg hexit]
  by_cases hr : (refine_prompt o.safetyReply q).1 = false
  · simp only [if_pos hr]
    constructor <;> first | rfl | exact True.intro
  simp only [if_neg hr]
  cases hsq : o.sqlChainResult with
  | none => constructor <;> rfl
  | some response =>
    simp only []
    cases hdb : o.dbRunResult (extract_sql response) with
    | none => constructor <;> rfl
    | some result =>
      simp only [List.filter_append, hf inp1, hf inp2, hm inp1, hm inp2]
      constructor <;> first | rfl | exact True.intro

theorem run_iteration_reach_viz (o : Oracle) (q resp res : List Char)
    (hexit : pyLower q ≠ ("exit".toList))
    (hsafe : (refine_prompt o.safetyReply q).1 = true)
    (hresp : o.sqlChainResult = some resp)
    (hdb : o.dbRunResult (extract_sql resp) = some res) :
    run_iteration o q = (Outcome.looped,
      (refine_prompt o.safetyReply q).2 ++
        [Event.sqlChainCall, Event.dbExecute (extract_sql resp)] ++
        (choose_llm o.llmChoiceInput).2 ++ viz_branch o res ++
        answer_step o (choose_llm o.llmChoiceInput).1) := by
  rw [run_iteration, if_neg hexit, if_neg (by simp [hsafe])]
  simp only [hresp]
  simp only [hdb]

theorem refine_prompt_events_sub (a b : List Char) (e : Event)
    (he : e ∈ (refine_prompt a b).2) :
    e = Event.printKeywordDetected ∨ e = Event.llmSafetyCall ∨
      e = Event.printSafeToProceed ∨ e = Event.printLLMWarning := by
  rw [refine_prompt] at he
  by_cases h1 : keyword_flag b
  · rw [if_pos h1] at he
    by_cases h2 : pyContains safe_marker (pyLower a)
    · rw [if_pos h2] at he
      simp at he
      tauto
    · rw [if_neg h2] at he
      simp at he
      tauto
  · rw [if_neg h1] at he
    simp at he

theorem choose_llm_events_sub (inp : List Char) (e : Event)
    (he : e ∈ (choose_llm inp).2) :
    e = Event.promptLLMChoice ∨ e = Event.printInvalidChoice := by
  rw [choose_llm] at he
  by_cases h : pyLower (pyStrip inp) = ("groq".toList)
  · rw [if_pos h] at he
    simp at he
    tauto
  · rw [if_neg h] at he
    simp at he
    tauto

theorem exec_events_sub (ok : Bool) (c : List Char) (e : Event)
    (he : e ∈ execute_generated_code ok c) :
    e = Event.execGeneratedCode c ∨ e = Event.printExecSuccess ∨
      e = Event.printExecError ∨ e = Event.printOffendingCode c := by
  rw [execute_generated_code] at he
  by_cases hok : ok = true
  · rw [if_pos hok] at he
    simp at he
    tauto
  · rw [if_neg hok] at he
    simp at he
    tauto

theorem answer_step_events_sub (o : Oracle) (m : ModelHandle) (e : Event)
    (he : e ∈ answer_step o m) :
    e = Event.llmAnswerCall ∨ (∃ a, e = Event.printFinalAnswer a) ∨
      e = Event.printAnswerWarning := by
  rw [answer_step] at he
  cases hr : o.answerReply m with
  | none =>
    simp only [hr] at he
    simp at he
    tauto
  | some a =>
    simp only [hr] at he
    simp at he
    rcases he with h | h
    · exact Or.inl h
    · exact Or.inr (Or.inl ⟨a, h⟩)

theorem answer_step_has_llm_call (o : Oracle) (m : ModelHandle) :
    Event.llmAnswerCall ∈ answer_step o m := by
  rw [answer_step]
  cases hr : o.answerReply m with
  | none => simp only [hr]; simp
  | some a => simp only [hr]; simp

/-- C8: if database execution of the generated SQL raises, the process
does not terminate: the iteration's events end with the printed warning
and the loop goes round to prompt for the next question.  `run_iteration`
is a pure function of the question and the oracle, so nothing from the
failed iteration carries over to later iterations. -/
theorem c8_db_error_continues (o : Oracle) (q resp : List Char)
    (hexit : pyLower q ≠ ("exit".toList))
    (hsafe : (refine_prompt o.safetyReply q).1 = true)
    (hresp : o.sqlChainResult = some resp)
    (hdb : o.dbRunResult (extract_sql resp) = none) :
    run_iteration o q = (Outcome.looped,
      (refine_prompt o.safetyReply q).2 ++
        [Event.sqlChainCall, Event.dbExecute (extract_sql resp),
         Event.printDBWarning]) := by
  rw [run_iteration, if_neg hexit, if_neg (by simp [hsafe])]
  simp only [hresp]
  simp only [hdb]

/-- Witness for C8: a failing database call on the question
"show all users". -/
theorem c8_witness :
    run_iteration oracleDBFail ("show all users".toList) = (Outcome.looped,
      (refine_prompt oracleDBFail.safetyReply ("show all users".toList)).2 ++
        [Event.sqlChainCall,
         Event.dbExecute (extract_sql ("SQLQuery: SELECT name FROM users".toList)),
         Event.printDBWarning]) :=
  c8_db_error_continues oracleDBFail ("show all users".toList)
    ("SQLQuery: SELECT name FROM users".toList) (by decide) (by decide) rfl rfl

/-- C9: an exception while executing LLM-generated visualization code is
caught inside `execute_generated_code`, which emits the error print and
the offending code text and returns normally; the surrounding loop
iteration still reaches the answer step and loops. -/
theorem c9_exec_error_caught (o : Oracle) (q resp res : List Char)
    (hexit : pyLower q ≠ ("exit".toList))
    (hsafe : (refine_prompt o.safetyReply q).1 = true)
    (hresp : o.sqlChainResult = some resp)
    (hdb : o.dbRunResult (extract_sql resp) = some res)
    (hviz : check_for_visualization_request o.vizReply = true)
    (hexec : o.codeExecOk (ask_llm_to_generate_code o.codeReply) = false) :
    execute_generated_code false (ask_llm_to_generate_code o.codeReply) =
      [Event.execGeneratedCode (ask_llm_to_generate_code o.codeReply),
       Event.printExecError,
       Event.printOffendingCode (ask_llm_to_generate_code o.codeReply)] ∧
      (run_iteration o q).1 = Outcome.looped ∧
      Event.printExecError ∈ (run_iteration o q).2 ∧
      Event.printOffendingCode (ask_llm_to_generate_code o.codeReply) ∈
        (run_iteration o q).2 ∧
      Event.llmAnswerCall ∈ (run_iteration o q).2 := by
  have hrun := run_iteration_reach_viz o q resp res hexit hsafe hresp hdb
  have hvizb : viz_branch o res =
      [Event.llmVizCheckCall, Event.printVizRequested, Event.llmCodeGenCall,
       Event.printGeneratedCode (ask_llm_to_generate_code o.codeReply)] ++
        [Event.execGeneratedCode (ask_llm_to_generate_code o.codeReply),
         Event.printExecError,
         Event.printOffendingCode (ask_llm_to_generate_code o.codeReply)] := by
    rw [viz_branch, if_pos hviz, hexec, execute_generated_code,
      if_neg Bool.false_ne_true]
  have hd1 : Event.printExecError ∈ viz_branch o res := by
    rw [hvizb]
    simp
  have hd2 : Event.printOffendingCode (ask_llm_to_generate_code o.codeReply) ∈
      viz_branch o res := by
    rw [hvizb]
    simp
  refine ⟨?_, ?_, ?_, ?_, ?_⟩
  · rw [execute_generated_code, if_neg Bool.false_ne_true]
  · rw [hrun]
  · rw [hrun]
    simp only [List.mem_append]
    exact Or.inl (Or.inr hd1)
  · rw [hrun]
    simp only [List.mem_append]
    exact Or.inl (Or.inr hd2)
  · rw [hrun]
    simp only [List.mem_append]
    exact Or.inr (answer_step_has_llm_call o (choose_llm o.llmChoiceInput).1)

/-- Witness for C9: a visualization iteration in which executing the
generated code raises. -/
theorem c9_witness :
    execute_generated_code false
        (ask_llm_to_generate_code oracleVizExecFail.codeReply) =
      [Event.execGeneratedCode (ask_llm_to_generate_code oracleVizExecFail.codeReply),
       Event.printExecError,
       Event.printOffendingCode (ask_llm_to_generate_code oracleVizExecFail.codeReply)] ∧
      (run_iteration oracleVizExecFail ("show all users".toList)).1 = Outcome.looped ∧
      Event.printExecError ∈ (run_iteration oracleVizExecFail ("show all users".toList)).2 ∧
      Event.printOffendingCode (ask_llm_to_generate_code oracleVizExecFail.codeReply) ∈
        (run_iteration oracleVizExecFail ("show all users".toList)).2 ∧
      Event.llmAnswerCall ∈ (run_iteration oracleVizExecFail ("show all users".toList)).2 :=
  c9_exec_error_caught oracleVizExecFail ("show all users".toList)
    ("SQLQuery: SELECT name FROM users".toList) ("rows".toList)
    (by decide) (by decide) rfl rfl (by decide) rfl

/-- C3 as stated is refuted by the code: in the concrete iteration below
the code synthesizer runs (one `llmCodeGenCall`) and the answer
synthesizer also runs (one `llmAnswerCall`, printing a final answer) in
the same iteration, so the two are not mutually exclusive. -/
theorem c3_counterexample :
    (run_iteration oracleViz ("show all users".toList)).2.count
        Event.llmCodeGenCall = 1 ∧
      (run_iteration oracleViz ("show all users".toList)).2.count
        Event.llmAnswerCall = 1 ∧
      (run_iteration oracleViz ("show all users".toList)).2.count
        (Event.printFinalAnswer ("answer".toList)) = 1 := by
  decide

/-- C3 amended: every iteration that reaches the visualization decision
runs exactly one branch of that decision — the code-synthesizer path or
the raw-result printout of line 219 — and the answer synthesizer (lines
224-240) then runs in the same iteration in either case. -/
theorem c3_amended_exclusive_branches (o : Oracle) (q resp res : List Char)
    (hexit : pyLower q ≠ ("exit".toList))
    (hsafe : (refine_prompt o.safetyReply q).1 = true)
    (hresp : o.sqlChainResult = some resp)
    (hdb : o.dbRunResult (extract_sql resp) = some res) :
    ((Event.llmCodeGenCall ∈ (run_iteration o q).2 ∧
        ∀ r, Event.printRawAnswer r ∉ (run_iteration o q).2) ∨
      ((∃ r, Event.printRawAnswer r ∈ (run_iteration o q).2) ∧
        Event.llmCodeGenCall ∉ (run_iteration o q).2)) ∧
      Event.llmAnswerCall ∈ (run_iteration o q).2 := by
  have hrun := run_iteration_reach_viz o q resp res hexit hsafe hresp hdb
  rw [hrun]
  refine ⟨?_, ?_⟩
  swap
  · simp only [List.mem_append]
    exact Or.inr (answer_step_has_llm_call o (choose_llm o.llmChoiceInput).1)
  by_cases hv : check_for_visualization_request o.vizReply = true
  · left
    have hvz : viz_branch o res =
        [Event.llmVizCheckCall, Event.printVizRequested, Event.llmCodeGenCall,
         Event.printGeneratedCode (ask_llm_to_generate_code o.codeReply)] ++
          execute_generated_code
            (o.codeExecOk (ask_llm_to_generate_code o.codeReply))
            (ask_llm_to_generate_code o.codeReply) := by
      rw [viz_branch, if_pos hv]
    constructor
    · simp only [List.mem_append]
      refine Or.inl (Or.inr ?_)
      rw [hvz]
      simp
    · intro r hmem
      simp only [List.mem_append] at hmem
      rcases hmem with (((hA | hB) | hC) | hD) | hE
      · rcases refine_prompt_events_sub _ _ _ hA with h | h | h | h <;> simp at h
      · simp at hB
      · rcases choose_llm_events_sub _ _ hC with h | h <;> simp at h
      · rw [hvz] at hD
        simp only [List.mem_append] at hD
        rcases hD with hD1 | hD2
        · simp at hD1
        · rcases exec_events_sub _ _ _ hD2 with h | h | h | h <;> simp at h
      · rcases answer_step_events_sub _ _ _ hE with h | ⟨a, h⟩ | h <;> simp at h
  · right
    have hvz : viz_branch o res =
        [Event.llmVizCheckCall, Event.printRawAnswer res] := by
      rw [viz_branch, if_neg hv]
    constructor
    · refine ⟨res, ?_⟩
      simp only [List.mem_append]
      refine Or.inl (Or.inr ?_)
      rw [hvz]
      simp
    · intro hmem
      simp only [List.mem_append] at hmem
      rcases hmem with (((hA | hB) | hC) | hD) | hE
      · rcases refine_prompt_events_sub _ _ _ hA with h | h | h | h <;> simp at h
      · simp at hB
      · rcases choose_llm_events_sub _ _ hC with h | h <;> simp at h
      · rw [hvz] at hD
        simp at hD
      · rcases answer_step_events_sub _ _ _ hE with h | ⟨a, h⟩ | h <;> simp at h

/-- Witness for the amended C3 on a concrete visualization iteration. -/
theorem c3_amended_witness :
    ((Event.llmCodeGenCall ∈
          (run_iteration oracleViz ("show all users".toList)).2 ∧
        ∀ r, Event.printRawAnswer r ∉
          (run_iteration oracleViz ("show all users".toList)).2) ∨
      ((∃ r, Event.printRawAnswer r ∈
          (run_iteration oracleViz ("show all users".toList)).2) ∧
        Event.llmCodeGenCall ∉
          (run_iteration oracleViz ("show all users".toList)).2)) ∧
      Event.llmAnswerCall ∈
        (run_iteration oracleViz ("show all users".toList)).2 :=
  c3_amended_exclusive_branches oracleViz ("show all users".toList)
    ("SQLQuery: SELECT name FROM users".toList) ("rows".toList)
    (by decide) (by decide) rfl rfl

theorem pySplitGo_ne_nil (sep : List Char) :
    ∀ fuel acc l, pySplitGo sep fuel acc l ≠ [] := by
  intro fuel
  induction fuel with
  | zero =>
    intro acc l
    cases l with
    | nil => simp [pySplitGo]
    | cons c rest => simp [pySplitGo]
  | succ n ih =>
    intro acc l
    cases l with
    | nil => simp [pySplitGo]
    | cons c rest =>
      simp only [pySplitGo]
      by_cases hp : sep.isPrefixOf (c :: rest)
      · rw [if_pos hp]
        simp
      · rw [if_neg hp]
        exact ih (c :: acc) rest

theorem pySplitGo_last (sep : List Char) (hsep : sep ≠ []) :
    ∀ fuel l acc, l.length ≤ fuel →
      ∃ suf, (pySplitGo sep fuel acc l).getLastD [] = suf ∧
        ((¬ sep <:+: l ∧ suf = acc.reverse ++ l) ∨
          (∃ pre, l = pre ++ sep ++ suf ∧ ¬ sep <:+: suf)) := by
  have hnil : ¬ sep <:+: ([] : List Char) := by
    intro hinf
    obtain ⟨s, t, hst⟩ := hinf
    exact hsep (List.append_eq_nil.mp (List.append_eq_nil.mp hst).1).2
  intro fuel
  induction fuel with
  | zero =>
    intro l acc hl
    have hl0 : l = [] := List.eq_nil_of_length_eq_zero (Nat.le_zero.mp hl)
    subst hl0
    exact ⟨acc.reverse, by simp [pySplitGo], Or.inl ⟨hnil, by simp⟩⟩
  | succ n ih =>
    intro l acc hl
    cases l with
    | nil => exact ⟨acc.reverse, by simp [pySplitGo], Or.inl ⟨hnil, by simp⟩⟩
    | cons c rest =>
      simp only [List.length_cons] at hl
      have hrl : rest.length ≤ n := Nat.succ_le_succ_iff.mp hl
      have hsl : 0 < sep.length := List.length_pos.mpr hsep
      by_cases hp : sep.isPrefixOf (c :: rest)
      · have hpre : sep <+: (c :: rest) := isPrefixOf_eq_true_iff _ _ |>.mp hp
        obtain ⟨t, ht⟩ := hpre
        have hrem : rest.drop (sep.length - 1) = t := by
          cases sep with
          | nil => exact absurd rfl hsep
          | cons s0 stail =>
            have h2 : stail ++ t = rest := by
              have := ht
              rw [List.cons_append] at this
              injection this with h1 h2
            rw [← h2]
            simp only [List.length_cons, Nat.add_sub_cancel]
            exact List.drop_left stail t
        have hfuel : (rest.drop (sep.length - 1)).length ≤ n := by
          rw [hrem]
          have hlen := congrArg List.length ht
          simp only [List.length_append, List.length_cons] at hlen
          omega
        obtain ⟨suf, hlast, hcase⟩ := ih (rest.drop (sep.length - 1)) [] hfuel
        refine ⟨suf, ?_, ?_⟩
        · simp only [pySplitGo, if_pos hp]
          obtain ⟨b, L, hbL⟩ := List.exists_cons_of_ne_nil
            (pySplitGo_ne_nil sep n [] (rest.drop (sep.length - 1)))
          rw [hbL, List.getLastD_cons, List.getLastD_cons]
          rw [hbL, List.getLastD_cons] at hlast
          exact hlast
        · rcases hcase with ⟨hni, hsuf⟩ | ⟨pre2, hpre2, hni⟩
          · right
            refine ⟨[], ?_, ?_⟩
            · have hs2 : suf = rest.drop (sep.length - 1) := by simpa using hsuf
              rw [hs2, hrem]
              simpa using ht.symm
            · have hs2 : suf = rest.drop (sep.length - 1) := by simpa using hsuf
              rw [hs2]
              exact hni
          · right
            refine ⟨sep ++ pre2, ?_, hni⟩
            rw [hrem] at hpre2
            rw [← ht, hpre2]
            simp
      · obtain ⟨suf, hlast, hcase⟩ := ih rest (c :: acc) hrl
        refine ⟨suf, ?_, ?_⟩
        · simp only [pySplitGo, if_neg hp]
          exact hlast
        · rcases hcase with ⟨hni, hsuf⟩ | ⟨pre2, hpre2, hni⟩
          · left
            refine ⟨?_, ?_⟩
            · intro hinf
              rcases List.infix_cons_iff.mp hinf with hpr | hinf2
              · exact hp (isPrefixOf_eq_true_iff _ _ |>.mpr hpr)
              · exact hni hinf2
            · rw [hsuf]
              simp
          · right
            refine ⟨c :: pre2, ?_, hni⟩
            rw [hpre2]
            simp

theorem marker_no_border :
    ∀ k ∈ List.range sql_marker.length, 0 < k →
      sql_marker.drop k ≠ sql_marker.take (sql_marker.length - k) := by
  decide

theorem marker_after_unique_aux (pre1 suf1 pre2 suf2 : List Char)
    (hle : pre1.length ≤ pre2.length)
    (heq : pre1 ++ sql_marker ++ suf1 = pre2 ++ sql_marker ++ suf2)
    (hni : ¬ sql_marker <:+: suf1) : suf1 = suf2 := by
  have hdrop := congrArg (List.drop pre1.length) heq
  rw [List.append_assoc, List.append_assoc, List.drop_left,
    List.drop_append_eq_append_drop, Nat.sub_eq_zero_of_le hle,
    List.drop_zero] at hdrop
  have hplen : (pre2.drop pre1.length).length = pre2.length - pre1.length := by
    simp
  rcases Nat.eq_zero_or_pos (pre2.length - pre1.length) with hk0 | hkpos
  · have hpnil : pre2.drop pre1.length = [] := by
      rw [← List.length_eq_zero, hplen]
      exact hk0
    rw [hpnil, List.nil_append] at hdrop
    exact List.append_cancel_left hdrop
  by_cases hkbig : sql_marker.length ≤ (pre2.drop pre1.length).length
  · exfalso
    apply hni
    have hs := congrArg (List.drop sql_marker.length) hdrop
    rw [List.drop_left, List.drop_append_eq_append_drop,
      Nat.sub_eq_zero_of_le hkbig, List.drop_zero] at hs
    exact ⟨(pre2.drop pre1.length).drop sql_marker.length, suf2,
      by rw [hs, List.append_assoc]⟩
  push_neg at hkbig
  exfalso
  have htake := congrArg (List.take sql_marker.length) hdrop
  rw [List.take_left, List.take_append_eq_append_take,
    List.take_of_length_le (Nat.le_of_lt hkbig), List.take_append_eq_append_take] at htake
  have hz : sql_marker.length - (pre2.drop pre1.length).length - sql_marker.length = 0 := by
    omega
  rw [hz, List.take_zero, List.append_nil] at htake
  have hdk := congrArg (List.drop (pre2.drop pre1.length).length) htake
  rw [List.drop_left] at hdk
  refine marker_no_border (pre2.drop pre1.length).length ?_ ?_ hdk
  · rw [List.mem_range]
    exact hkbig
  · rw [hplen]
    omega

theorem marker_after_unique (pre1 suf1 pre2 suf2 : List Char)
    (heq : pre1 ++ sql_marker ++ suf1 = pre2 ++ sql_marker ++ suf2)
    (h1 : ¬ sql_marker <:+: suf1) (h2 : ¬ sql_marker <:+: suf2) :
    suf1 = suf2 := by
  rcases Nat.le_total pre1.length pre2.length with h | h
  · exact marker_after_unique_aux pre1 suf1 pre2 suf2 h heq h1
  · exact (marker_after_unique_aux pre2 suf2 pre1 suf1 h heq.symm h2).symm

/-- C4: the SQL text passed to database execution is the stripped suffix
of the chain response following the last occurrence of the marker
"SQLQuery:" — the unique suffix `suf` such that the response is
`pre ++ "SQLQuery:" ++ suf` with no further marker occurrence inside
`suf` — and, when the marker does not occur, the whole response,
stripped. -/
theorem c4_sql_after_last_marker (response : List Char) :
    ∃ suf, extract_sql response = pyStrip suf ∧
      ((¬ sql_marker <:+: response ∧ suf = response) ∨
        (∃ pre, response = pre ++ sql_marker ++ suf ∧ ¬ sql_marker <:+: suf)) ∧
      ∀ suf2,
        ((¬ sql_marker <:+: response ∧ suf2 = response) ∨
          (∃ pre2, response = pre2 ++ sql_marker ++ suf2 ∧
            ¬ sql_marker <:+: suf2)) →
        suf2 = suf := by
  obtain ⟨suf, hlast, hcase⟩ := pySplitGo_last sql_marker (by decide)
    response.length response [] (Nat.le_refl _)
  have hcase2 : (¬ sql_marker <:+: response ∧ suf = response) ∨
      (∃ pre, response = pre ++ sql_marker ++ suf ∧ ¬ sql_marker <:+: suf) := by
    rcases hcase with ⟨hni, hsuf⟩ | h2
    · exact Or.inl ⟨hni, by simpa using hsuf⟩
    · exact Or.inr h2
  refine ⟨suf, ?_, hcase2, ?_⟩
  · rw [extract_sql, pySplit, hlast]
  · intro suf2 hc2
    rcases hcase2 with ⟨hni, hsuf⟩ | ⟨pre, hpre, hni⟩
    · rcases hc2 with ⟨_, hsuf2⟩ | ⟨pre2, hpre2, _⟩
      · rw [hsuf2, hsuf]
      · exact absurd ⟨pre2, suf2, hpre2.symm⟩ hni
    · rcases hc2 with ⟨hni2, _⟩ | ⟨pre2, hpre2, hni2⟩
      · exact absurd ⟨pre, suf, hpre.symm⟩ hni2
      · exact marker_after_unique pre2 suf2 pre suf
          (hpre2.symm.trans hpre) hni2 hni

theorem pySliceFrom_natCast (n : Nat) (s : List Char) :
    pySliceFrom (n : Int) s = s.drop n := by
  rw [pySliceFrom, if_pos (Int.natCast_nonneg n)]
  simp

/-- C6: for every LLM reply containing "import", the generated code is the
reply truncated to start at the first occurrence of "import" (no earlier
position starts an occurrence, and the kept suffix begins with "import",
so no text precedes the code), with the markers removed and the result
stripped. -/
theorem c6_code_starts_at_first_import (reply : List Char)
    (h : ("import".toList) <:+: reply) :
    ∃ pre suf, reply = pre ++ suf ∧ ("import".toList) <+: suf ∧
      (∀ m, m < pre.length → ¬ ("import".toList) <+: reply.drop m) ∧
      ask_llm_to_generate_code reply =
        pyStrip (pyReplace ("```".toList) []
          (pyReplace ("```python".toList) [] suf)) := by
  cases heq : pyFindN ("import".toList) reply with
  | none => exact absurd h (pyFindN_none_spec _ _ heq)
  | some n =>
    obtain ⟨h1, h2, h3⟩ := pyFindN_some_spec _ _ _ heq
    have htk : (reply.take n).length = n := by
      rw [List.length_take]
      omega
    refine ⟨reply.take n, reply.drop n, (List.take_append_drop n reply).symm, h1,
      ?_, ?_⟩
    · intro m hm
      rw [htk] at hm
      exact h3 m hm
    · rw [ask_llm_to_generate_code]
      have hfind : pyFind ("import".toList) reply = (n : Int) := by
        rw [pyFind, heq]
      rw [hfind, pySliceFrom_natCast]

/-- Witness for C6: a reply with prose before a fenced code block. -/
theorem c6_witness :
    ("import".toList) <:+: ("here: ```python\nimport os\n```".toList) ∧
      ∃ pre suf, ("here: ```python\nimport os\n```".toList) = pre ++ suf ∧
        ("import".toList) <+: suf ∧
        (∀ m, m < pre.length →
          ¬ ("import".toList) <+:
            (("here: ```python\nimport os\n```".toList).drop m)) ∧
        ask_llm_to_generate_code ("here: ```python\nimport os\n```".toList) =
          pyStrip (pyReplace ("```".toList) []
            (pyReplace ("```python".toList) [] suf)) :=
  ⟨by decide, c6_code_starts_at_first_import
    ("here: ```python\nimport os\n```".toList) (by decide)⟩

theorem not_isPrefixOf_single (old : List Char) (c : Char) (h : 1 < old.length) :
    ¬ old.isPrefixOf [c] = true := by
  intro hq
  have hp := isPrefixOf_eq_true_iff _ _ |>.mp hq
  have hlen := hp.length_le
  simp at hlen
  omega

theorem pyReplace_single (old new : List Char) (c : Char) (h : 1 < old.length) :
    pyReplace old new [c] = [c] := by
  rw [pyReplace]
  simp only [List.length_cons, List.length_nil]
  simp only [pyReplaceGo, if_neg (not_isPrefixOf_single old c h)]

theorem pyStrip_length_le (s : List Char) : (pyStrip s).length ≤ s.length := by
  rw [pyStrip]
  have h1 : (s.dropWhile isPySpace).length ≤ s.length :=
    (List.dropWhile_sublist isPySpace).length_le
  have h2 : ((s.dropWhile isPySpace).reverse.dropWhile isPySpace).length ≤
      (s.dropWhile isPySpace).reverse.length :=
    (List.dropWhile_sublist isPySpace).length_le
  simp only [List.length_reverse] at h2 ⊢
  omega

/-- C10 as stated is refuted: the reply "x" contains no "import", yet the
function returns the reply unchanged, contradicting the clause that it
never returns the reply unchanged. -/
theorem c10_counterexample :
    ¬ (("import".toList) <:+: ("x".toList)) ∧
      ask_llm_to_generate_code ("x".toList) = ("x".toList) := by
  decide

/-- C10 amended: if the reply contains no "import", `str.find` yields -1,
the slice keeps only the final character of the reply (nothing for an
empty reply), and the returned code is that character after fence-marker
removal (a no-op on at most one character) and stripping; the result has
at most one character, so a reply of length at least two is never returned
unchanged, but a reply of length at most one can be. -/
theorem c10_no_import_last_char (reply : List Char)
    (h : ¬ ("import".toList) <:+: reply) :
    pyFind ("import".toList) reply = -1 ∧
      pySliceFrom (-1) reply = reply.drop (reply.length - 1) ∧
      ask_llm_to_generate_code reply =
        pyStrip (pyReplace ("```".toList) []
          (pyReplace ("```python".toList) [] (reply.drop (reply.length - 1)))) ∧
      ask_llm_to_generate_code reply = pyStrip (reply.drop (reply.length - 1)) ∧
      (ask_llm_to_generate_code reply).length ≤ 1 ∧
      (2 ≤ reply.length → ask_llm_to_generate_code reply ≠ reply) := by
  have heq : pyFindN ("import".toList) reply = none := by
    cases heq : pyFindN ("import".toList) reply with
    | none => rfl
    | some n =>
      obtain ⟨h1, _, _⟩ := pyFindN_some_spec _ _ _ heq
      exact absurd ((infix_iff_exists_drop _ _).mpr ⟨n, h1⟩) h
  have hfind : pyFind ("import".toList) reply = -1 := by
    rw [pyFind, heq]
  have hslice : pySliceFrom (-1) reply = reply.drop (reply.length - 1) := by
    rw [pySliceFrom, if_neg (by decide)]
    have ht : ((reply.length : Int) + (-1)).toNat = reply.length - 1 := by omega
    rw [ht]
  have hlen1 : (reply.drop (reply.length - 1)).length ≤ 1 := by
    simp only [List.length_drop]
    omega
  have hrep : pyReplace ("```".toList) []
      (pyReplace ("```python".toList) [] (reply.drop (reply.length - 1))) =
      reply.drop (reply.length - 1) := by
    cases hdc : reply.drop (reply.length - 1) with
    | nil => rfl
    | cons c rest =>
      have hr0 : rest = [] := by
        rw [hdc] at hlen1
        simp only [List.length_cons] at hlen1
        exact List.eq_nil_of_length_eq_zero (by omega)
      subst hr0
      rw [pyReplace_single _ _ _ (by decide), pyReplace_single _ _ _ (by decide)]
  have hask : ask_llm_to_generate_code reply =
      pyStrip (pyReplace ("```".toList) []
        (pyReplace ("```python".toList) [] (reply.drop (reply.length - 1)))) := by
    rw [ask_llm_to_generate_code, hfind, hslice]
  have hask2 : ask_llm_to_generate_code reply =
      pyStrip (reply.drop (reply.length - 1)) := by
    rw [hask, hrep]
  have hlen : (ask_llm_to_generate_code reply).length ≤ 1 := by
    rw [hask2]
    exact le_trans (pyStrip_length_le _) hlen1
  refine ⟨hfind, hslice, hask, hask2, hlen, ?_⟩
  intro h2 hne
  have hlq := congrArg List.length hne
  omega

/-- Witness for the amended C10 at the reply "hello". -/
theorem c10_witness :
    pyFind ("import".toList) ("hello".toList) = -1 ∧
      pySliceFrom (-1) ("hello".toList) =
        ("hello".toList).drop (("hello".toList).length - 1) ∧
      ask_llm_to_generate_code ("hello".toList) =
        pyStrip (pyReplace ("```".toList) []
          (pyReplace ("```python".toList) []
            (("hello".toList).drop (("hello".toList).length - 1)))) ∧
      ask_llm_to_generate_code ("hello".toList) =
        pyStrip (("hello".toList).drop (("hello".toList).length - 1)) ∧
      (ask_llm_to_generate_code ("hello".toList)).length ≤ 1 ∧
      (2 ≤ ("hello".toList).length →
        ask_llm_to_generate_code ("hello".toList) ≠ ("hello".toList)) :=
  c10_no_import_last_char ("hello".toList) (by decide)
